import Mathlib

/-!
Verification of the leave-request agent's reply-detection and alert-dispatch
engine.  JavaScript strings are modelled as Lean `String`s; the case-folding,
trimming and substring operations of the source are modelled over the
underlying character lists.  Machine numbers (`internalDate` epoch
milliseconds, hour counts) are modelled as `Nat`/`Int`, and the fractional
age computation over `ℚ`.
-/

namespace LeaveAgent

/-! ### JavaScript string primitives -/

/-- Model of `s.toLowerCase()` : character-wise lower-casing of the
underlying character list. -/
def lowerChars (s : String) : List Char :=
  s.data.map Char.toLower

/-- Model of `String.prototype.trim` : drop leading and trailing
whitespace characters. -/
def trimChars (l : List Char) : List Char :=
  ((l.dropWhile Char.isWhitespace).reverse.dropWhile Char.isWhitespace).reverse

/-- Model of `s.startsWith(p)` on an already-processed character list. -/
def startsWithChars (l : List Char) (p : String) : Bool :=
  p.data.isPrefixOf l

/-- Model of `s.includes(p)` (JavaScript substring containment): some
suffix of `l` has `p` as a prefix.  In particular the empty pattern is
contained in every string, as in JavaScript. -/
def includesChars : List Char → List Char → Bool
  | [], p => p.isEmpty
  | c :: t, p => p.isPrefixOf (c :: t) || includesChars t p

/-! ### Data model (gmailClient.js `getEmailDetails` record shape) -/

/-- A normalized message record as produced by `GmailClient.getEmailDetails`:
`{id, thread_id, snippet, internal_date, from, to, subject, date, body}`.
Header-derived fields are optional because they are only set when the
corresponding header is present.  The `from` header is stored in `sender`
(`from` is a reserved word in Lean). -/
structure Email where
  id : String
  thread_id : Option String
  internal_date : Option Nat
  sender : Option String
  toAddr : Option String
  subject : Option String
  date : Option String
deriving DecidableEq, Repr

/-- A raw thread member as returned by `users.threads.get` combined with the
detail fetch (`getEmailDetails`) the resolver performs on it: the loop in
`checkForReply` reads `message.id`, `message.internalDate` and, from the
details, `from` and `subject`. -/
structure ThreadMsg where
  id : String
  internalDate : Option Nat
  sender : Option String
  subject : Option String
deriving DecidableEq, Repr

/-! ### Reply resolver (`GmailClient.checkForReply`) -/

/-- `sortedMessages[0].id`: the thread is sorted ascending by
`parseInt(internalDate || 0)` (stable, as ECMAScript `Array.prototype.sort`)
and the id of its first element is taken; `none` when the thread is empty
(in the source, `firstMessage?.id` is `undefined`). -/
def earliestMessageId (messages : List ThreadMsg) : Option String :=
  ((messages.mergeSort fun a b => a.internalDate.getD 0 ≤ b.internalDate.getD 0).head?).map
    ThreadMsg.id

/-- Body of the `for (const message of messages)` loop in `checkForReply`:
skip the original's id and the sorted-first id, require
`msgDate > originalDate`, then accept when the sender differs from the
original's `from` or the lower-cased subject starts with `re:`. -/
def isReplyMessage (original : Email) (originalMessageId : Option String) (m : ThreadMsg) :
    Bool :=
  if m.id = original.id ∨ some m.id = originalMessageId then false
  else if original.internal_date.getD 0 < m.internalDate.getD 0 then
    (original.sender.getD "" != m.sender.getD "") ||
      startsWithChars (lowerChars (m.subject.getD "")) "re:"
  else false

/-- `GmailClient.checkForReply`: returns `false` when `thread_id` is falsy
(absent or empty), otherwise scans the thread's messages for a qualifying
reply, short-circuiting at the first match. -/
def checkForReply (original : Email) (thread : List ThreadMsg) : Bool :=
  if original.thread_id.getD "" = "" then false
  else thread.any (isReplyMessage original (earliestMessageId thread))

/-! ### Leave-request classifier (filter inside `GmailClient.findLeaveRequests`) -/

/-- The reply/forward marker test `subjectLower.match(/^(re:|fwd?:|fw:)/)`:
the regular expression matches exactly the prefixes `re:`, `fwd:` and
`fw:` (the alternative `fwd?:` denotes `fw:` or `fwd:`). -/
def hasReplyForwardMarker (l : List Char) : Bool :=
  startsWithChars l "re:" || startsWithChars l "fwd:" || startsWithChars l "fw:"

/-- The per-message filter in `findLeaveRequests`: lower-case and trim the
subject (`''` when absent), drop reply/forward-marked subjects, keep the
message when some configured keyword, lower-cased, occurs as a substring. -/
def classify (keywords : List String) (email : Email) : Bool :=
  let subjectLower := trimChars (lowerChars (email.subject.getD ""))
  if hasReplyForwardMarker subjectLower then false
  else keywords.any fun keyword => includesChars subjectLower (lowerChars keyword)

/-- The retained sublist of `findLeaveRequests`. -/
def findLeaveRequests (keywords : List String) (emails : List Email) : List Email :=
  emails.filter (classify keywords)

/-! ### Age evaluator (`GmailClient.getEmailAgeHours`) -/

/-- `GmailClient.getEmailAgeHours`: `parseInt(email.internal_date || 0)`,
return `0` when that is `0`, otherwise `(now - emailDate) / (1000*60*60)`
as an exact rational (the source computes an unrounded float). -/
def getEmailAgeHours (now : ℤ) (email : Email) : ℚ :=
  let internalDate : ℤ := (email.internal_date.getD 0 : Nat)
  if internalDate = 0 then 0
  else ((now : ℚ) - (internalDate : ℚ)) / (1000 * 60 * 60)

/-! ### Scan lookback window (`leaveAgent.js` `runOnce`) -/

/-- `Math.max(7, Math.ceil(REPLY_TIMEOUT_HOURS / 24) + 1)` for a
non-negative integer timeout. -/
def lookbackDays (replyTimeoutHours : ℕ) : ℕ :=
  max 7 (Nat.ceil ((replyTimeoutHours : ℚ) / 24) + 1)

/-! ### Push channel (`firebaseService.js` `FirebaseService`) -/

/-- The mutable state of `FirebaseService`: the `initialized` flag and the
`fcmTokens` registry (a JavaScript `Set`, modelled as a duplicate-free list
in insertion order). -/
structure FirebaseState where
  initialized : Bool
  fcmTokens : List String
deriving DecidableEq, Repr

/-- `Set.prototype.delete`: remove the token from the registry. -/
def setDelete (tokens : List String) (t : String) : List String :=
  tokens.filter fun x => x ≠ t

/-- `FirebaseService.sendNotification`, given the per-recipient outcome of
the multicast send (`response.responses[idx].success`, index-aligned with
`Array.from(this.fcmTokens)`): returns `false` without touching the
registry when uninitialized or empty; otherwise, when `failureCount > 0`,
deletes from the registry every token whose result failed, then returns
`true`. -/
def sendNotification (st : FirebaseState) (results : List Bool) : FirebaseState × Bool :=
  if st.initialized = false ∨ st.fcmTokens.length = 0 then (st, false)
  else
    let tokens := st.fcmTokens
    let failureCount := (results.filter fun r => r = false).length
    let newTokens :=
      if 0 < failureCount then
        (tokens.zip results).foldl (fun acc p => if p.2 then acc else setDelete acc p.1) tokens
      else tokens
    ({ st with fcmTokens := newTokens }, true)

/-! ### Web channel recent-history buffer (`notificationService.js`) -/

/-- `this.webNotifications.push(record)` in the production branch of
`notifyPendingLeaveRequest` / `notifySummary`: append one record. -/
def pushNotification {α : Type} (buffer : List α) (record : α) : List α :=
  buffer ++ [record]

/-- The `webNotifications` array after a sequence of dispatched records,
starting from the empty array created in the constructor. -/
def webNotificationsAfter {α : Type} (records : List α) : List α :=
  records.foldl pushNotification []

/-- `NotificationService.getRecentNotifications(limit = 10)`:
`this.webNotifications.slice(-limit)`.  For a positive `limit`,
`slice(-limit)` yields the trailing `limit` elements; for `limit = 0`
JavaScript's `slice(-0)` is `slice(0)`, the whole array. -/
def getRecentNotifications {α : Type} (buffer : List α) (limit : ℕ) : List α :=
  if limit = 0 then buffer else buffer.drop (buffer.length - limit)

/-! ### Run orchestrator (`leaveAgent.js` `LeaveRequestAgent.runOnce`) -/

/-- The `results` record built by `runOnce`:
`{checked_requests, pending_requests, notifications_sent, errors}`. -/
structure RunResults where
  checked_requests : ℕ
  pending_requests : ℕ
  notifications_sent : ℕ
  errors : List String
deriving DecidableEq, Repr

/-- The orchestrator state threaded through one `runOnce` call: the
`processedRequests` set (insertion-ordered, duplicate-free), the `results`
record, and two instrumentation logs recording, in order, the ids for
which `checkForReply` was invoked and the ids for which the per-candidate
alert (`notifyPendingLeaveRequest`) was dispatched. -/
structure AgentState where
  processed : List String
  results : RunResults
  checkedIds : List String
  notifiedIds : List String
deriving DecidableEq, Repr

/-- `Set.prototype.add` on the processed-requests set. -/
def setAdd (s : List String) (id : String) : List String :=
  if s.contains id then s else s ++ [id]

/-- Outcome of a loop that runs inside the single `try` block of
`runOnce`: either it completed, or a call inside it threw with the given
message, leaving the partially-updated state behind. -/
inductive RunStep (σ : Type) where
  | completed (st : σ)
  | raised (st : σ) (msg : String)
deriving DecidableEq, Repr

/-- The state carried by a `RunStep`, whichever way the loop ended. -/
def RunStep.state {σ : Type} : RunStep σ → σ
  | .completed st => st
  | .raised st _ => st

/-- The first `for (const request of leaveRequests)` loop of `runOnce`
(the EVALUATING phase).  The impure collaborators are abstracted as
oracles: `reply` is the Reply Resolver call (`checkForReply`), which may
throw, and `age` is `getEmailAgeHours` at the current clock.  Per
candidate: skip if already processed; skip (without marking) if
`age < timeout`; otherwise invoke the resolver — on reply found mark
processed, otherwise queue the candidate and count it pending.  There is
no per-candidate catch: a throw ends the loop immediately. -/
def evalLoop (reply : Email → Except String Bool) (age : Email → ℚ) (timeout : ℚ) :
    List Email → AgentState × List Email → RunStep (AgentState × List Email)
  | [], s => .completed s
  | request :: rest, (st, pending) =>
    if st.processed.contains request.id then
      evalLoop reply age timeout rest (st, pending)
    else if age request < timeout then
      evalLoop reply age timeout rest (st, pending)
    else
      match reply request with
      | .error msg =>
          .raised ({ st with checkedIds := st.checkedIds ++ [request.id] }, pending) msg
      | .ok true =>
          evalLoop reply age timeout rest
            ({ st with
                checkedIds := st.checkedIds ++ [request.id],
                processed := setAdd st.processed request.id }, pending)
      | .ok false =>
          evalLoop reply age timeout rest
            ({ st with
                checkedIds := st.checkedIds ++ [request.id],
                results := { st.results with
                              pending_requests := st.results.pending_requests + 1 } },
             pending ++ [request])

/-- The second `for (const request of pendingRequests)` loop of `runOnce`
(the NOTIFYING phase).  `notify` abstracts
`notificationService.notifyPendingLeaveRequest`, which reports failure by
returning `false` but may also throw; its boolean result is ignored, the
counter is incremented and the candidate marked processed after every
dispatch that returns.  There is no per-candidate catch. -/
def notifyLoop (notify : Email → Except String Bool) :
    List Email → AgentState → RunStep AgentState
  | [], st => .completed st
  | request :: rest, st =>
    match notify request with
    | .error msg => .raised { st with notifiedIds := st.notifiedIds ++ [request.id] } msg
    | .ok _ =>
        notifyLoop notify rest
          { st with
              notifiedIds := st.notifiedIds ++ [request.id],
              results := { st.results with
                            notifications_sent := st.results.notifications_sent + 1 },
              processed := setAdd st.processed request.id }

/-- The error string pushed by the `catch` block of `runOnce`. -/
def agentErrorText (msg : String) : String :=
  "Error during agent execution: " ++ msg

/-- Append the caught error to the result record (the `catch` block). -/
def catchInto (st : AgentState) (msg : String) : AgentState :=
  { st with results := { st.results with
      errors := st.results.errors ++ [agentErrorText msg] } }

/-- The state `runOnce` starts from, given the already-fetched candidate
list and the processed set carried over from earlier runs of the same
agent instance. -/
def initialState (leaveRequests : List Email) (processed : List String) : AgentState :=
  { processed := processed,
    results := { checked_requests := leaveRequests.length, pending_requests := 0,
                 notifications_sent := 0, errors := [] },
    checkedIds := [], notifiedIds := [] }

/-- The SUMMARIZING tail of `runOnce`: when candidates were queued,
dispatch one aggregate alert (`summary` abstracts `notifySummary`, which
may throw — the throw is caught by the same run-level `catch`). -/
def summaryPhase (summary : ℕ → Except String Bool) (pendingLen : ℕ)
    (st : AgentState) : AgentState :=
  if 0 < pendingLen then
    match summary pendingLen with
    | .error msg => catchInto st msg
    | .ok _ => st
  else st

/-- `LeaveRequestAgent.runOnce` after the candidate fetch: one `try` block
containing the evaluating loop, the notifying loop and the summary
dispatch; the single `catch` appends the error message to `results.errors`
and the summary record is returned either way. -/
def runOnce (reply notify : Email → Except String Bool)
    (summary : ℕ → Except String Bool) (age : Email → ℚ) (timeout : ℚ)
    (leaveRequests : List Email) (processed : List String) : AgentState :=
  match evalLoop reply age timeout leaveRequests (initialState leaveRequests processed, []) with
  | .raised (st, _) msg => catchInto st msg
  | .completed (st, pendingRequests) =>
      match notifyLoop notify pendingRequests st with
      | .raised st2 msg => catchInto st2 msg
      | .completed st2 => summaryPhase summary pendingRequests.length st2

/-! ### Supporting lemmas -/

lemma includesChars_iff_infix (l p : List Char) :
    includesChars l p = true ↔ p <:+: l := by
  induction l with
  | nil => simp [includesChars]
  | cons c t ih =>
      simp [includesChars, List.infix_cons_iff, ih, List.isPrefixOf_iff_prefix]

lemma isReplyMessage_eq_true (original : Email) (originalMessageId : Option String)
    (m : ThreadMsg) :
    isReplyMessage original originalMessageId m = true ↔
      ¬(m.id = original.id ∨ some m.id = originalMessageId) ∧
      original.internal_date.getD 0 < m.internalDate.getD 0 ∧
      (original.sender.getD "" ≠ m.sender.getD "" ∨
        startsWithChars (lowerChars (m.subject.getD "")) "re:" = true) := by
  unfold isReplyMessage
  by_cases h₁ : m.id = original.id ∨ some m.id = originalMessageId
  · simp [h₁]
  · by_cases h₂ : original.internal_date.getD 0 < m.internalDate.getD 0
    · simp [h₁, h₂, bne_iff_ne]
    · simp [h₁, h₂]

lemma foldl_setDelete (pairs : List (String × Bool)) (acc : List String) :
    pairs.foldl (fun acc p => if p.2 then acc else setDelete acc p.1) acc
      = acc.filter fun x => decide (∀ p ∈ pairs, p.2 = true ∨ x ≠ p.1) := by
  induction pairs generalizing acc with
  | nil => simp
  | cons hd rest ih =>
      obtain ⟨t, b⟩ := hd
      cases b with
      | true =>
          rw [List.foldl_cons]
          simp only [if_pos rfl]
          rw [ih]
          refine List.filter_congr fun x _ => ?_
          refine decide_eq_decide.2 ?_
          simp only [List.mem_cons]
          constructor
          · rintro h p (rfl | hp)
            · exact Or.inl rfl
            · exact h p hp
          · intro h p hp
            exact h p (Or.inr hp)
      | false =>
          rw [List.foldl_cons]
          simp only [Bool.false_eq_true, if_false]
          rw [ih, setDelete, List.filter_filter]
          refine List.filter_congr fun x _ => ?_
          rcases Decidable.em (x = t) with hxt | hxt
          · subst hxt
            simp
          · simp [hxt]

lemma filter_survivors_eq_filterMap (tokens : List String) (results : List Bool)
    (hlen : results.length = tokens.length) (hnd : tokens.Nodup) :
    (tokens.filter fun x => decide (∀ p ∈ tokens.zip results, p.2 = true ∨ x ≠ p.1))
      = (tokens.zip results).filterMap fun p => if p.2 then some p.1 else none := by
  induction tokens generalizing results with
  | nil => simp
  | cons t ts ih =>
      cases results with
      | nil => simp at hlen
      | cons b bs =>
          have hlen' : bs.length = ts.length := by simpa using hlen
          have hnotmem : t ∉ ts := (List.nodup_cons.1 hnd).1
          have hnd' : ts.Nodup := (List.nodup_cons.1 hnd).2
          have hrest : ∀ p ∈ ts.zip bs, t ≠ p.1 := by
            intro p hp ht
            exact hnotmem (ht ▸ (List.of_mem_zip hp).1)
          simp only [List.zip_cons_cons, List.filter_cons, List.filterMap_cons]
          have htail :
              (ts.filter fun x =>
                  decide (∀ p ∈ (t, b) :: ts.zip bs, p.2 = true ∨ x ≠ p.1))
                = ts.filter fun x => decide (∀ p ∈ ts.zip bs, p.2 = true ∨ x ≠ p.1) := by
            refine List.filter_congr fun x hx => ?_
            refine decide_eq_decide.2 ?_
            simp only [List.mem_cons]
            constructor
            · intro h p hp
              exact h p (Or.inr hp)
            · rintro h p (rfl | hp)
              · refine Or.inr fun hxt => ?_
                rw [hxt] at hx
                exact hnotmem hx
              · exact h p hp
          cases b with
          | true =>
              have hhead :
                  (decide (∀ p ∈ (t, true) :: ts.zip bs, p.2 = true ∨ t ≠ p.1)) = true := by
                simp only [decide_eq_true_eq, List.mem_cons]
                rintro p (rfl | hp)
                · exact Or.inl rfl
                · exact Or.inr (hrest p hp)
              rw [hhead, htail, ih bs hlen' hnd']
              simp
          | false =>
              have hhead :
                  (decide (∀ p ∈ (t, false) :: ts.zip bs, p.2 = true ∨ t ≠ p.1)) = false := by
                simp only [decide_eq_false_iff_not, List.mem_cons]
                intro h
                rcases h (t, false) (Or.inl rfl) with h' | h'
                · exact absurd h' (by simp)
                · exact h' rfl
              rw [hhead, htail, ih bs hlen' hnd']
              simp

lemma foldl_pushNotification {α : Type} (records acc : List α) :
    records.foldl pushNotification acc = acc ++ records := by
  induction records generalizing acc with
  | nil => simp
  | cons r rest ih => simp [pushNotification, ih]

lemma contains_iff_mem (l : List String) (a : String) : l.contains a = true ↔ a ∈ l := by
  simp [List.contains]

lemma mem_setAdd_iff (s : List String) (id a : String) :
    a ∈ setAdd s id ↔ a ∈ s ∨ a = id := by
  rw [setAdd]
  by_cases h : s.contains id
  · rw [if_pos h]
    constructor
    · exact Or.inl
    · rintro (ha | rfl)
      · exact ha
      · exact (contains_iff_mem s a).1 h
  · rw [if_neg h]
    simp

lemma mem_setAdd_self (s : List String) (id : String) : id ∈ setAdd s id :=
  (mem_setAdd_iff s id id).2 (Or.inr rfl)

lemma mem_setAdd_of_mem (s : List String) (id a : String) (h : a ∈ s) : a ∈ setAdd s id :=
  (mem_setAdd_iff s id a).2 (Or.inl h)

/-- Combined invariant of the EVALUATING loop: the queue grows by a
subsequence of the scanned candidates, each queued candidate is past the
timeout and was unprocessed on entry; the processed set only grows, and
every id newly processed or newly resolver-checked belongs to a scanned
candidate that was past the timeout; the notification counter, the error
list, the checked-requests counter and the dispatch log are untouched. -/
lemma evalLoop_inv (reply : Email → Except String Bool) (age : Email → ℚ) (timeout : ℚ)
    (requests : List Email) (st : AgentState) (pending : List Email) :
    ∃ extra : List Email,
      (evalLoop reply age timeout requests (st, pending)).state.2 = pending ++ extra ∧
      List.Sublist (extra.map Email.id) (requests.map Email.id) ∧
      (∀ r ∈ extra, r ∈ requests ∧ ¬age r < timeout ∧ r.id ∉ st.processed) ∧
      (∀ id ∈ st.processed,
        id ∈ (evalLoop reply age timeout requests (st, pending)).state.1.processed) ∧
      (∀ id ∈ (evalLoop reply age timeout requests (st, pending)).state.1.processed,
        id ∈ st.processed ∨ ∃ r ∈ requests, r.id = id ∧ ¬age r < timeout) ∧
      (∀ id ∈ (evalLoop reply age timeout requests (st, pending)).state.1.checkedIds,
        id ∈ st.checkedIds ∨ ∃ r ∈ requests, r.id = id ∧ ¬age r < timeout) ∧
      (evalLoop reply age timeout requests (st, pending)).state.1.results.pending_requests
        = st.results.pending_requests + extra.length ∧
      (evalLoop reply age timeout requests (st, pending)).state.1.results.notifications_sent
        = st.results.notifications_sent ∧
      (evalLoop reply age timeout requests (st, pending)).state.1.results.errors
        = st.results.errors ∧
      (evalLoop reply age timeout requests (st, pending)).state.1.results.checked_requests
        = st.results.checked_requests ∧
      (evalLoop reply age timeout requests (st, pending)).state.1.notifiedIds
        = st.notifiedIds := by
  induction requests generalizing st pending with
  | nil =>
      exact ⟨[], by simp [evalLoop, RunStep.state], by simp, by simp,
        fun id h => by simpa [evalLoop, RunStep.state] using h,
        fun id h => Or.inl (by simpa [evalLoop, RunStep.state] using h),
        fun id h => Or.inl (by simpa [evalLoop, RunStep.state] using h),
        by simp [evalLoop, RunStep.state], by simp [evalLoop, RunStep.state],
        by simp [evalLoop, RunStep.state], by simp [evalLoop, RunStep.state],
        by simp [evalLoop, RunStep.state]⟩
  | cons r rest ih =>
      rw [evalLoop]
      by_cases h1 : st.processed.contains r.id = true
      · rw [if_pos h1]
        obtain ⟨extra, hpend, hsub, hextra, hA, hB, hC, hcnt, hsent, herr, hchk, hnot⟩ :=
          ih st pending
        refine ⟨extra, hpend, hsub.trans (List.sublist_cons_self _ _), ?_, hA, ?_, ?_,
          hcnt, hsent, herr, hchk, hnot⟩
        · exact fun x hx => ⟨List.mem_cons_of_mem r (hextra x hx).1, (hextra x hx).2.1,
            (hextra x hx).2.2⟩
        · intro id hid
          rcases hB id hid with h | ⟨x, hx, hxx⟩
          · exact Or.inl h
          · exact Or.inr ⟨x, List.mem_cons_of_mem r hx, hxx⟩
        · intro id hid
          rcases hC id hid with h | ⟨x, hx, hxx⟩
          · exact Or.inl h
          · exact Or.inr ⟨x, List.mem_cons_of_mem r hx, hxx⟩
      · rw [if_neg h1]
        have hrmem : r.id ∉ st.processed := fun hmem =>
          h1 ((contains_iff_mem st.processed r.id).2 hmem)
        by_cases h2 : age r < timeout
        · rw [if_pos h2]
          obtain ⟨extra, hpend, hsub, hextra, hA, hB, hC, hcnt, hsent, herr, hchk, hnot⟩ :=
            ih st pending
          refine ⟨extra, hpend, hsub.trans (List.sublist_cons_self _ _), ?_, hA, ?_, ?_,
            hcnt, hsent, herr, hchk, hnot⟩
          · exact fun x hx => ⟨List.mem_cons_of_mem r (hextra x hx).1, (hextra x hx).2.1,
              (hextra x hx).2.2⟩
          · intro id hid
            rcases hB id hid with h | ⟨x, hx, hxx⟩
            · exact Or.inl h
            · exact Or.inr ⟨x, List.mem_cons_of_mem r hx, hxx⟩
          · intro id hid
            rcases hC id hid with h | ⟨x, hx, hxx⟩
            · exact Or.inl h
            · exact Or.inr ⟨x, List.mem_cons_of_mem r hx, hxx⟩
        · rw [if_neg h2]
          rcases hrep : reply r with msg | b
          · refine ⟨[], ?_, ?_, ?_, ?_, ?_, ?_, ?_, ?_, ?_, ?_, ?_⟩
            · simp [RunStep.state]
            · simp
            · simp
            · intro id hid
              simpa [RunStep.state] using hid
            · intro id hid
              exact Or.inl (by simpa [RunStep.state] using hid)
            · intro id hid
              have hid' : id ∈ st.checkedIds ++ [r.id] := by
                simpa [RunStep.state] using hid
              rcases List.mem_append.1 hid' with h | h
              · exact Or.inl h
              · exact Or.inr ⟨r, List.mem_cons_self r rest, (List.mem_singleton.1 h).symm, h2⟩
            · simp [RunStep.state]
            · simp [RunStep.state]
            · simp [RunStep.state]
            · simp [RunStep.state]
            · simp [RunStep.state]
          · cases b with
            | true =>
                obtain ⟨extra, hpend, hsub, hextra, hA, hB, hC, hcnt, hsent, herr, hchk,
                  hnot⟩ := ih
                    { st with
                        checkedIds := st.checkedIds ++ [r.id],
                        processed := setAdd st.processed r.id } pending
                refine ⟨extra, hpend, hsub.trans (List.sublist_cons_self _ _), ?_, ?_, ?_,
                  ?_, by simpa using hcnt, hsent, herr, hchk, hnot⟩
                · intro x hx
                  refine ⟨List.mem_cons_of_mem r (hextra x hx).1, (hextra x hx).2.1, ?_⟩
                  intro hmem
                  exact (hextra x hx).2.2 (mem_setAdd_of_mem _ _ _ hmem)
                · intro id hid
                  exact hA id (mem_setAdd_of_mem _ _ _ hid)
                · intro id hid
                  rcases hB id hid with h | ⟨x, hx, hxx⟩
                  · rcases (mem_setAdd_iff _ _ _).1 h with h' | rfl
                    · exact Or.inl h'
                    · exact Or.inr ⟨r, List.mem_cons_self r rest, rfl, h2⟩
                  · exact Or.inr ⟨x, List.mem_cons_of_mem r hx, hxx⟩
                · intro id hid
                  rcases hC id hid with h | ⟨x, hx, hxx⟩
                  · rcases List.mem_append.1 h with h' | h'
                    · exact Or.inl h'
                    · refine Or.inr ⟨r, List.mem_cons_self r rest, ?_, h2⟩
                      exact (List.mem_singleton.1 h').symm
                  · exact Or.inr ⟨x, List.mem_cons_of_mem r hx, hxx⟩
            | false =>
                obtain ⟨extra, hpend, hsub, hextra, hA, hB, hC, hcnt, hsent, herr, hchk,
                  hnot⟩ := ih
                    { st with
                        checkedIds := st.checkedIds ++ [r.id],
                        results := { st.results with
                          pending_requests := st.results.pending_requests + 1 } }
                    (pending ++ [r])
                refine ⟨r :: extra, ?_, ?_, ?_, hA, ?_, ?_, ?_, hsent, herr, hchk, hnot⟩
                · rw [hpend]
                  simp
                · exact List.Sublist.cons₂ r.id hsub
                · intro x hx
                  rcases List.mem_cons.1 hx with rfl | hx'
                  · exact ⟨List.mem_cons_self x rest, h2, hrmem⟩
                  · exact ⟨List.mem_cons_of_mem r (hextra x hx').1, (hextra x hx').2.1,
                      (hextra x hx').2.2⟩
                · intro id hid
                  rcases hB id hid with h | ⟨x, hx, hxx⟩
                  · exact Or.inl h
                  · exact Or.inr ⟨x, List.mem_cons_of_mem r hx, hxx⟩
                · intro id hid
                  rcases hC id hid with h | ⟨x, hx, hxx⟩
                  · rcases List.mem_append.1 h with h' | h'
                    · exact Or.inl h'
                    · refine Or.inr ⟨r, List.mem_cons_self r rest, ?_, h2⟩
                      exact (List.mem_singleton.1 h').symm
                  · exact Or.inr ⟨x, List.mem_cons_of_mem r hx, hxx⟩
                · rw [hcnt]
                  simp [Nat.add_comm, Nat.add_assoc, Nat.add_left_comm]

/-- Combined invariant of the NOTIFYING loop: the dispatch log grows by a
prefix of the queued candidates' ids (all of them when the loop
completes); the processed set only grows, and every id newly processed
belongs to a queued candidate; the pending counter, error list,
checked-requests counter and resolver log are untouched. -/
lemma notifyLoop_inv (notify : Email → Except String Bool) (pend : List Email)
    (st : AgentState) :
    ∃ dispatched : List String,
      (notifyLoop notify pend st).state.notifiedIds = st.notifiedIds ++ dispatched ∧
      (∃ t, dispatched ++ t = pend.map Email.id) ∧
      (∀ id ∈ st.processed, id ∈ (notifyLoop notify pend st).state.processed) ∧
      (∀ id ∈ (notifyLoop notify pend st).state.processed,
        id ∈ st.processed ∨ ∃ r ∈ pend, r.id = id) ∧
      (notifyLoop notify pend st).state.results.pending_requests
        = st.results.pending_requests ∧
      (notifyLoop notify pend st).state.results.errors = st.results.errors ∧
      (notifyLoop notify pend st).state.results.checked_requests
        = st.results.checked_requests ∧
      (notifyLoop notify pend st).state.checkedIds = st.checkedIds := by
  induction pend generalizing st with
  | nil =>
      exact ⟨[], by simp [notifyLoop, RunStep.state], ⟨[], by simp⟩,
        fun id h => by simpa [notifyLoop, RunStep.state] using h,
        fun id h => Or.inl (by simpa [notifyLoop, RunStep.state] using h),
        by simp [notifyLoop, RunStep.state], by simp [notifyLoop, RunStep.state],
        by simp [notifyLoop, RunStep.state], by simp [notifyLoop, RunStep.state]⟩
  | cons r rest ih =>
      rw [notifyLoop]
      rcases hrep : notify r with msg | b
      · refine ⟨[r.id], ?_, ⟨rest.map Email.id, by simp⟩, ?_, ?_, ?_, ?_, ?_, ?_⟩
        · simp [RunStep.state]
        · intro id hid
          simpa [RunStep.state] using hid
        · intro id hid
          exact Or.inl (by simpa [RunStep.state] using hid)
        · simp [RunStep.state]
        · simp [RunStep.state]
        · simp [RunStep.state]
        · simp [RunStep.state]
      · obtain ⟨dispatched, hlog, ⟨t, ht⟩, hmono, hprov, hcnt, herr, hchk, hcid⟩ :=
          ih { st with
                notifiedIds := st.notifiedIds ++ [r.id],
                results := { st.results with
                  notifications_sent := st.results.notifications_sent + 1 },
                processed := setAdd st.processed r.id }
        refine ⟨r.id :: dispatched, ?_, ⟨t, by simp [← ht]⟩, ?_, ?_, by simpa using hcnt,
          by simpa using herr, by simpa using hchk, by simpa using hcid⟩
        · rw [hlog]
          simp
        · intro id hid
          exact hmono id (mem_setAdd_of_mem _ _ _ hid)
        · intro id hid
          rcases hprov id hid with h | ⟨x, hx, hxx⟩
          · rcases (mem_setAdd_iff _ _ _).1 h with h' | rfl
            · exact Or.inl h'
            · exact Or.inr ⟨r, List.mem_cons_self r rest, rfl⟩
          · exact Or.inr ⟨x, List.mem_cons_of_mem r hx, hxx⟩

/-- When the NOTIFYING loop completes, the sent counter has grown by
exactly the queue length and every queued candidate is marked
processed. -/
lemma notifyLoop_completed (notify : Email → Except String Bool) (pend : List Email)
    (st st2 : AgentState) (h : notifyLoop notify pend st = .completed st2) :
    st2.results.notifications_sent = st.results.notifications_sent + pend.length ∧
    ∀ r ∈ pend, r.id ∈ st2.processed := by
  induction pend generalizing st with
  | nil =>
      rw [notifyLoop] at h
      cases h
      exact ⟨by simp, by simp⟩
  | cons r rest ih =>
      rw [notifyLoop] at h
      rcases hrep : notify r with msg | b <;> rw [hrep] at h
      · exact absurd h (by simp)
      · have h' : notifyLoop notify rest
            { st with
                notifiedIds := st.notifiedIds ++ [r.id],
                results := { st.results with
                  notifications_sent := st.results.notifications_sent + 1 },
                processed := setAdd st.processed r.id } = RunStep.completed st2 := h
        obtain ⟨hsent, hproc⟩ := ih _ h'
        obtain ⟨d, -, -, hmono, -, -, -, -, -⟩ := notifyLoop_inv notify rest
          { st with
              notifiedIds := st.notifiedIds ++ [r.id],
              results := { st.results with
                notifications_sent := st.results.notifications_sent + 1 },
              processed := setAdd st.processed r.id }
        rw [h'] at hmono
        simp only [RunStep.state] at hmono
        refine ⟨by simpa [Nat.add_assoc, Nat.add_comm 1 rest.length] using hsent, ?_⟩
        intro x hx
        rcases List.mem_cons.1 hx with rfl | hx'
        · exact hmono x.id (mem_setAdd_self _ _)
        · exact hproc x hx'

/-- When a dispatch throws at candidate `e`, the NOTIFYING loop raises
that very message after dispatching exactly the candidates before `e`:
the log records them and `e`, the sent counter counts only them, the
error list is untouched (the catch is at run level) and nothing past `e`
was processed. -/
lemma notifyLoop_raised_at (notify : Email → Except String Bool) (p1 : List Email)
    (e : Email) (p2 : List Email) (st : AgentState) (msg : String)
    (hok : ∀ x ∈ p1, ∃ b, notify x = Except.ok b) (herr : notify e = Except.error msg) :
    ∃ stMid : AgentState,
      notifyLoop notify (p1 ++ e :: p2) st = .raised stMid msg ∧
      stMid.notifiedIds = st.notifiedIds ++ (p1.map Email.id ++ [e.id]) ∧
      stMid.results.notifications_sent = st.results.notifications_sent + p1.length ∧
      stMid.results.errors = st.results.errors ∧
      stMid.results.pending_requests = st.results.pending_requests ∧
      (∀ id ∈ stMid.processed, id ∈ st.processed ∨ ∃ r ∈ p1, r.id = id) := by
  induction p1 generalizing st with
  | nil =>
      refine ⟨{ st with notifiedIds := st.notifiedIds ++ [e.id] }, ?_, by simp, by simp,
        by simp, by simp, fun id h => Or.inl h⟩
      rw [List.nil_append, notifyLoop, herr]
  | cons x p1' ih =>
      obtain ⟨b, hb⟩ := hok x (List.mem_cons_self x p1')
      obtain ⟨stMid, hrun, hlog, hsent, herr2, hcnt, hproc⟩ :=
        ih { st with
              notifiedIds := st.notifiedIds ++ [x.id],
              results := { st.results with
                notifications_sent := st.results.notifications_sent + 1 },
              processed := setAdd st.processed x.id }
          (fun y hy => hok y (List.mem_cons_of_mem x hy))
      refine ⟨stMid, ?_, ?_, ?_, by simpa using herr2, by simpa using hcnt, ?_⟩
      · rw [List.cons_append, notifyLoop, hb]
        exact hrun
      · rw [hlog]
        simp
      · rw [hsent]
        simp [Nat.add_assoc, Nat.add_comm 1 p1'.length]
      · intro id hid
        rcases hproc id hid with h | ⟨r, hr, hrr⟩
        · rcases (mem_setAdd_iff _ _ _).1 h with h' | rfl
          · exact Or.inl h'
          · exact Or.inr ⟨x, List.mem_cons_self x p1', rfl⟩
        · exact Or.inr ⟨r, List.mem_cons_of_mem x hr, hrr⟩

/-- The SUMMARIZING phase never changes the counters, the processed set or
the logs; it can only append to the error list. -/
lemma summaryPhase_preserves (summary : ℕ → Except String Bool) (n : ℕ)
    (st : AgentState) :
    (summaryPhase summary n st).processed = st.processed ∧
    (summaryPhase summary n st).notifiedIds = st.notifiedIds ∧
    (summaryPhase summary n st).checkedIds = st.checkedIds ∧
    (summaryPhase summary n st).results.notifications_sent
      = st.results.notifications_sent ∧
    (summaryPhase summary n st).results.pending_requests
      = st.results.pending_requests ∧
    (summaryPhase summary n st).results.checked_requests
      = st.results.checked_requests := by
  rw [summaryPhase]
  by_cases h : 0 < n
  · rw [if_pos h]
    rcases summary n with msg | b
    · exact ⟨rfl, rfl, rfl, rfl, rfl, rfl⟩
    · exact ⟨rfl, rfl, rfl, rfl, rfl, rfl⟩
  · rw [if_neg h]
    exact ⟨rfl, rfl, rfl, rfl, rfl, rfl⟩

lemma catchInto_processed (st : AgentState) (msg : String) :
    (catchInto st msg).processed = st.processed := rfl

lemma catchInto_notifiedIds (st : AgentState) (msg : String) :
    (catchInto st msg).notifiedIds = st.notifiedIds := rfl

lemma catchInto_checkedIds (st : AgentState) (msg : String) :
    (catchInto st msg).checkedIds = st.checkedIds := rfl

lemma catchInto_errors (st : AgentState) (msg : String) :
    (catchInto st msg).results.errors = st.results.errors ++ [agentErrorText msg] := rfl

lemma catchInto_sent (st : AgentState) (msg : String) :
    (catchInto st msg).results.notifications_sent = st.results.notifications_sent := rfl

lemma initialState_processed (leaveRequests : List Email) (processed : List String) :
    (initialState leaveRequests processed).processed = processed := rfl

lemma initialState_checkedIds (leaveRequests : List Email) (processed : List String) :
    (initialState leaveRequests processed).checkedIds = [] := rfl

lemma initialState_notifiedIds (leaveRequests : List Email) (processed : List String) :
    (initialState leaveRequests processed).notifiedIds = [] := rfl

/-! ### Claim theorems -/

/-- Claim C1: for an original message with a (non-falsy) `thread_id`,
`checkForReply` returns `true` iff the thread contains a message, other
than the original's id and the id of the earliest message after sorting
the thread ascending by `internal_date`, whose `internal_date` is strictly
greater than the original's and whose sender differs from the original's
`from` or whose subject lower-cased starts with `re:`; a thread containing
only the original yields `false`, and an absent `thread_id` yields
`false`. -/
theorem checkForReply_spec (original : Email) (thread : List ThreadMsg) :
    (original.thread_id.getD "" ≠ "" →
      (checkForReply original thread = true ↔
        ∃ m ∈ thread,
          ¬(m.id = original.id ∨ some m.id = earliestMessageId thread) ∧
          original.internal_date.getD 0 < m.internalDate.getD 0 ∧
          (original.sender.getD "" ≠ m.sender.getD "" ∨
            startsWithChars (lowerChars (m.subject.getD "")) "re:" = true))) ∧
    (original.thread_id = none → checkForReply original thread = false) ∧
    (∀ m : ThreadMsg, m.id = original.id → checkForReply original [m] = false) := by
  refine ⟨fun h => ?_, fun h => ?_, fun m hm => ?_⟩
  · rw [checkForReply, if_neg h, List.any_eq_true]
    constructor
    · rintro ⟨m, hmem, hrep⟩
      exact ⟨m, hmem, (isReplyMessage_eq_true original (earliestMessageId thread) m).1 hrep⟩
    · rintro ⟨m, hmem, hrep⟩
      exact ⟨m, hmem, (isReplyMessage_eq_true original (earliestMessageId thread) m).2 hrep⟩
  · simp [checkForReply, h]
  · by_cases ht : original.thread_id.getD "" = ""
    · simp [checkForReply, ht]
    · rw [checkForReply, if_neg ht]
      simp only [List.any_cons, List.any_nil, Bool.or_false]
      rw [isReplyMessage]
      simp [hm]

/-- Claim C1 witness: the theorem applied at a concrete original and
thread (a single-message thread seen from an original with a thread id). -/
theorem checkForReply_spec_witness :
    (checkForReply ⟨"m1", some "t1", some 100, some "me@x", none, some "leave", none⟩
        [⟨"m1", some 100, some "me@x", some "leave"⟩] = true ↔
      ∃ m ∈ [(⟨"m1", some 100, some "me@x", some "leave"⟩ : ThreadMsg)],
        ¬(m.id = "m1" ∨
            some m.id = earliestMessageId [⟨"m1", some 100, some "me@x", some "leave"⟩]) ∧
        (100 : ℕ) < m.internalDate.getD 0 ∧
        ((some "me@x" : Option String).getD "" ≠ m.sender.getD "" ∨
          startsWithChars (lowerChars (m.subject.getD "")) "re:" = true)) ∧
    checkForReply ⟨"m1", none, some 100, some "me@x", none, some "leave", none⟩
        [⟨"m1", some 100, some "me@x", some "leave"⟩] = false :=
  ⟨(checkForReply_spec ⟨"m1", some "t1", some 100, some "me@x", none, some "leave", none⟩
      [⟨"m1", some 100, some "me@x", some "leave"⟩]).1 (by decide),
   (checkForReply_spec ⟨"m1", none, some 100, some "me@x", none, some "leave", none⟩
      [⟨"m1", some 100, some "me@x", some "leave"⟩]).2.1 rfl⟩

/-- Claim C4 counterexample: when the configured keyword list contains the
empty keyword (possible, e.g. `LEAVE_REQUEST_KEYWORDS="a,,b"`), a message
with an absent subject is KEPT by the filter, because in JavaScript
`''.includes('')` is `true`; this refutes the claim's assertion that a
message with an empty or absent subject is excluded for every keyword
set. -/
theorem classify_c4_counterexample :
    classify [""] ⟨"m1", none, none, none, none, none, none⟩ = true := by
  decide

/-- Claim C4 (amended): the filter keeps a message iff its subject,
lower-cased and trimmed, does not carry a `re:`/`fwd:`/`fw:` marker and
contains some configured keyword (lower-cased) as a substring; a
marker-prefixed subject is always excluded; and a message with an empty or
absent subject is excluded provided no configured keyword is the empty
string. -/
theorem classify_spec (keywords : List String) (email : Email) :
    (classify keywords email = true ↔
      hasReplyForwardMarker (trimChars (lowerChars (email.subject.getD ""))) = false ∧
      ∃ keyword ∈ keywords,
        lowerChars keyword <:+: trimChars (lowerChars (email.subject.getD ""))) ∧
    ((startsWithChars (trimChars (lowerChars (email.subject.getD ""))) "re:" = true ∨
      startsWithChars (trimChars (lowerChars (email.subject.getD ""))) "fwd:" = true ∨
      startsWithChars (trimChars (lowerChars (email.subject.getD ""))) "fw:" = true) →
      classify keywords email = false) ∧
    ((∀ keyword ∈ keywords, keyword ≠ "") →
      email.subject.getD "" = "" → classify keywords email = false) := by
  refine ⟨?_, fun h => ?_, fun hk hs => ?_⟩
  · unfold classify
    by_cases hm : hasReplyForwardMarker (trimChars (lowerChars (email.subject.getD "")))
    · simp [hm]
    · simp only [hm, if_false, Bool.not_eq_true] at *
      simp [hm, List.any_eq_true, includesChars_iff_infix]
  · have hm : hasReplyForwardMarker (trimChars (lowerChars (email.subject.getD ""))) = true := by
      unfold hasReplyForwardMarker
      rcases h with h | h | h <;> simp [h]
    simp [classify, hm]
  · unfold classify
    rw [hs]
    have hempty : trimChars (lowerChars "") = [] := by decide
    rw [hempty]
    have : ∀ keyword ∈ keywords, includesChars [] (lowerChars keyword) = false := by
      intro keyword hmem
      have hne : keyword ≠ "" := hk keyword hmem
      have hdata : keyword.data ≠ [] := by
        intro hd
        apply hne
        cases keyword
        simp_all
      simp [includesChars, lowerChars, List.isEmpty_iff, hdata]
    have hM : hasReplyForwardMarker ([] : List Char) = false := by decide
    simp only [hM, Bool.false_eq_true, if_false, List.any_eq_false]
    intro k hk'
    simp [this k hk']

/-- Claim C4 witness: the amended theorem applied at the default keyword
list and a reply-marked, then an empty-subject, concrete message. -/
theorem classify_spec_witness :
    classify ["leave request", "leave"]
        ⟨"m1", none, none, none, none, some "Re: leave request", none⟩ = false ∧
    classify ["leave request", "leave"]
        ⟨"m2", none, none, none, none, none, none⟩ = false :=
  ⟨(classify_spec ["leave request", "leave"]
      ⟨"m1", none, none, none, none, some "Re: leave request", none⟩).2.1
      (Or.inl (by decide)),
   (classify_spec ["leave request", "leave"]
      ⟨"m2", none, none, none, none, none, none⟩).2.2 (by decide) rfl⟩

/-- Claim C8: `getEmailAgeHours` returns `(now − internal_date)` converted
to hours as an exact (unrounded) rational; an `internal_date` of `0` or
absent yields exactly `0`, which is below every positive timeout, so a
message with unknown timestamp is never flagged as overdue. -/
theorem getEmailAgeHours_spec (now : ℤ) (email : Email) :
    (email.internal_date.getD 0 ≠ 0 →
      getEmailAgeHours now email =
        ((now : ℚ) - (email.internal_date.getD 0 : ℕ)) / (1000 * 60 * 60)) ∧
    (email.internal_date.getD 0 = 0 → getEmailAgeHours now email = 0) ∧
    (∀ timeout : ℚ, 0 < timeout → email.internal_date.getD 0 = 0 →
      getEmailAgeHours now email < timeout) := by
  refine ⟨fun h => ?_, fun h => ?_, fun timeout htimeout h => ?_⟩
  · rw [getEmailAgeHours, if_neg (by exact_mod_cast h)]
    norm_num
  · rw [getEmailAgeHours, if_pos (by exact_mod_cast h)]
  · rw [getEmailAgeHours, if_pos (by exact_mod_cast h)]
    exact htimeout

/-- Claim C8 witness: the theorem applied at a concrete clock value and
messages with a known and an absent timestamp. -/
theorem getEmailAgeHours_spec_witness :
    getEmailAgeHours 7200000 ⟨"m1", none, some 3600000, none, none, none, none⟩ =
      ((7200000 : ℚ) - (3600000 : ℕ)) / (1000 * 60 * 60) ∧
    getEmailAgeHours 7200000 ⟨"m2", none, none, none, none, none, none⟩ < 1 :=
  ⟨((getEmailAgeHours_spec 7200000 ⟨"m1", none, some 3600000, none, none, none, none⟩).1
      (by decide)),
   ((getEmailAgeHours_spec 7200000 ⟨"m2", none, none, none, none, none, none⟩).2.2 1
      (by norm_num) rfl)⟩

/-- Claim C9: the scan lookback window `max(7, ceil(timeout/24) + 1)` days,
expressed in hours, always covers the configured timeout, for every
non-negative integer timeout. -/
theorem lookbackDays_covers (replyTimeoutHours : ℕ) :
    7 ≤ lookbackDays replyTimeoutHours ∧
    replyTimeoutHours ≤ 24 * lookbackDays replyTimeoutHours := by
  constructor
  · exact le_max_left _ _
  · have h : (replyTimeoutHours : ℚ) / 24 ≤ Nat.ceil ((replyTimeoutHours : ℚ) / 24) :=
      Nat.le_ceil _
    have h24 : (replyTimeoutHours : ℚ) ≤ 24 * Nat.ceil ((replyTimeoutHours : ℚ) / 24) := by
      rw [div_le_iff₀ (by norm_num : (0 : ℚ) < 24)] at h
      linarith
    have hnat : replyTimeoutHours ≤ 24 * Nat.ceil ((replyTimeoutHours : ℚ) / 24) := by
      exact_mod_cast h24
    calc replyTimeoutHours ≤ 24 * Nat.ceil ((replyTimeoutHours : ℚ) / 24) := hnat
      _ ≤ 24 * (Nat.ceil ((replyTimeoutHours : ℚ) / 24) + 1) := by omega
      _ ≤ 24 * lookbackDays replyTimeoutHours := by
          exact Nat.mul_le_mul_left 24 (le_max_right _ _)

/-- Claim C5: after a multicast send over the registry tokens whose
per-recipient results are index-aligned with the tokens, the registry
equals the old registry minus exactly the tokens whose result failed, and
the send reports success. -/
theorem sendNotification_prunes (st : FirebaseState) (results : List Bool)
    (hinit : st.initialized = true) (hne : st.fcmTokens ≠ [])
    (hlen : results.length = st.fcmTokens.length) (hnd : st.fcmTokens.Nodup) :
    (sendNotification st results).1.fcmTokens
      = ((st.fcmTokens.zip results).filterMap fun p => if p.2 then some p.1 else none) ∧
    (sendNotification st results).2 = true := by
  have hguard : ¬(st.initialized = false ∨ st.fcmTokens.length = 0) := by
    rintro (h | h)
    · rw [hinit] at h
      exact absurd h (by simp)
    · exact hne (List.length_eq_zero.1 h)
  rw [sendNotification]
  simp only [hguard, if_false]
  refine ⟨?_, by trivial⟩
  by_cases hfail : 0 < (results.filter fun r => r = false).length
  · simp only [hfail, if_pos]
    rw [foldl_setDelete, filter_survivors_eq_filterMap st.fcmTokens results hlen hnd]
  · simp only [hfail, if_false]
    have halltrue : ∀ r ∈ results, r = true := by
      intro r hr
      by_contra hne'
      have : r = false := by
        cases r
        · rfl
        · exact absurd rfl hne'
      have hmem : r ∈ results.filter fun r => r = false := by
        rw [List.mem_filter]
        refine ⟨hr, ?_⟩
        subst this
        decide
      have : 0 < (results.filter fun r => r = false).length :=
        List.length_pos.2 (List.ne_nil_of_mem hmem)
      exact hfail this
    rw [← filter_survivors_eq_filterMap st.fcmTokens results hlen hnd]
    have : ∀ x ∈ st.fcmTokens,
        (decide (∀ p ∈ st.fcmTokens.zip results, p.2 = true ∨ x ≠ p.1)) = true := by
      intro x _
      simp only [decide_eq_true_eq]
      intro p hp
      exact Or.inl (halltrue p.2 (List.of_mem_zip hp).2)
    rw [List.filter_congr this]
    simp

/-- Claim C5 witness: the theorem applied at registry tokens `[A, B, C]`
with success for `A` and `C` and failure for `B`; the registry afterwards
is exactly `[A, C]`. -/
theorem sendNotification_prunes_witness :
    (sendNotification ⟨true, ["A", "B", "C"]⟩ [true, false, true]).1.fcmTokens = ["A", "C"] :=
  ((sendNotification_prunes ⟨true, ["A", "B", "C"]⟩ [true, false, true] rfl (by decide) rfl
      (by decide)).1).trans (by decide)

/-- Claim C7 counterexample: the web channel's `webNotifications` buffer is
NOT bounded by the capacity 10 — after eleven dispatched records the
buffer retains all eleven, because the production dispatch path only ever
appends and nothing trims the array. -/
theorem webNotifications_c7_counterexample :
    ¬((webNotificationsAfter (List.range 11)).length ≤ 10) := by
  decide

/-- Claim C7 (amended): the buffer itself grows without bound — after any
sequence of dispatched records it retains every record, in dispatch order;
the bounded recent-history property holds only for the view returned by
`getRecentNotifications`: for a positive `limit` (default 10) it returns
at most `limit` records, and they are the most recent ones (a suffix of
the buffer). -/
theorem recentHistory_bounded {α : Type} (records : List α) (limit : ℕ) (hpos : 0 < limit) :
    webNotificationsAfter records = records ∧
    (getRecentNotifications (webNotificationsAfter records) limit).length ≤ limit ∧
    getRecentNotifications (webNotificationsAfter records) limit <:+
      webNotificationsAfter records := by
  have hbuf : webNotificationsAfter records = records := by
    rw [webNotificationsAfter, foldl_pushNotification]
    simp
  refine ⟨hbuf, ?_, ?_⟩
  · rw [getRecentNotifications, if_neg (Nat.pos_iff_ne_zero.1 hpos)]
    rw [List.length_drop]
    omega
  · rw [getRecentNotifications, if_neg (Nat.pos_iff_ne_zero.1 hpos)]
    exact List.drop_suffix _ _

/-- Claim C7 witness: the amended theorem applied to twelve dispatched
records with the default capacity 10. -/
theorem recentHistory_bounded_witness :
    webNotificationsAfter (List.range 12) = List.range 12 ∧
    (getRecentNotifications (webNotificationsAfter (List.range 12)) 10).length ≤ 10 ∧
    getRecentNotifications (webNotificationsAfter (List.range 12)) 10 <:+
      webNotificationsAfter (List.range 12) :=
  recentHistory_bounded (List.range 12) 10 (by decide)

/-- Claim C2: once a message id is in the processed set it is never
alerted again by this agent instance — the processed set only grows, no
id already processed on entry is ever dispatched during the run, and no
id is dispatched twice within a run; applying the theorem to a second
`runOnce` with the first run's processed set shows the second call
contributes no alert for any candidate already marked processed. -/
theorem runOnce_no_realert (reply notify : Email → Except String Bool)
    (summary : ℕ → Except String Bool) (age : Email → ℚ) (timeout : ℚ)
    (leaveRequests : List Email) (processed : List String)
    (hnd : (leaveRequests.map Email.id).Nodup) :
    (∀ id ∈ processed,
      id ∈ (runOnce reply notify summary age timeout leaveRequests processed).processed) ∧
    (∀ id ∈ processed,
      id ∉ (runOnce reply notify summary age timeout leaveRequests processed).notifiedIds) ∧
    (runOnce reply notify summary age timeout leaveRequests processed).notifiedIds.Nodup := by
  obtain ⟨extra, hpend, hsub, hextra, hA, hB, hC, hcnt, hsent0, herr0, hchk0, hnot⟩ :=
    evalLoop_inv reply age timeout leaveRequests (initialState leaveRequests processed) []
  rcases hev : evalLoop reply age timeout leaveRequests
      (initialState leaveRequests processed, []) with ⟨st, pending⟩ | ⟨⟨st, p⟩, msg⟩
  · rw [hev] at hpend hA hnot
    simp only [RunStep.state] at hpend hA hnot
    simp only [initialState_processed, initialState_notifiedIds] at hA hextra hnot
    obtain ⟨dispatched, hlog, ⟨t, ht⟩, hmono, hprov, hcnt2, herr2, hchk2, hcid2⟩ :=
      notifyLoop_inv notify pending st
    have hlog' : (notifyLoop notify pending st).state.notifiedIds = dispatched := by
      rw [hlog, hnot]
      simp
    have hdisp_sub : List.Sublist dispatched (List.map Email.id leaveRequests) := by
      have h1 : List.Sublist dispatched (pending.map Email.id) := by
        rw [← ht]
        exact List.sublist_append_left _ _
      have h2 : pending.map Email.id = extra.map Email.id := by
        rw [hpend]
        simp
      rw [h2] at h1
      exact h1.trans hsub
    have key1 : ∀ id ∈ processed, id ∈ (notifyLoop notify pending st).state.processed :=
      fun id h => hmono id (hA id h)
    have key2 : ∀ id ∈ processed,
        id ∉ (notifyLoop notify pending st).state.notifiedIds := by
      intro id h hmem
      rw [hlog'] at hmem
      have hidp : id ∈ pending.map Email.id := by
        rw [← ht]
        exact List.mem_append_left _ hmem
      rw [hpend] at hidp
      simp only [List.nil_append] at hidp
      obtain ⟨x, hx, hxid⟩ := List.mem_map.1 hidp
      refine (hextra x hx).2.2 ?_
      rw [hxid]
      exact h
    have key3 : (notifyLoop notify pending st).state.notifiedIds.Nodup := by
      rw [hlog']
      exact hnd.sublist hdisp_sub
    rcases hnl : notifyLoop notify pending st with st2 | ⟨st2, msg⟩
    · rw [hnl] at key1 key2 key3
      simp only [RunStep.state] at key1 key2 key3
      have hrun : runOnce reply notify summary age timeout leaveRequests processed
          = summaryPhase summary pending.length st2 := by
        simp only [runOnce, hev, hnl]
      obtain ⟨hsp, hsn, hsc, hss, hspend, hscheck⟩ :=
        summaryPhase_preserves summary pending.length st2
      rw [hrun, hsp, hsn]
      exact ⟨key1, key2, key3⟩
    · rw [hnl] at key1 key2 key3
      simp only [RunStep.state] at key1 key2 key3
      have hrun : runOnce reply notify summary age timeout leaveRequests processed
          = catchInto st2 msg := by
        simp only [runOnce, hev, hnl]
      rw [hrun, catchInto_processed, catchInto_notifiedIds]
      exact ⟨key1, key2, key3⟩
  · rw [hev] at hA hnot
    simp only [RunStep.state] at hA hnot
    simp only [initialState_processed, initialState_notifiedIds] at hA hnot
    have hrun : runOnce reply notify summary age timeout leaveRequests processed
        = catchInto st msg := by
      simp only [runOnce, hev]
    rw [hrun, catchInto_processed, catchInto_notifiedIds, hnot]
    refine ⟨hA, fun id h hmem => by simp at hmem, by simp⟩

/-- Claim C2 witness: the theorem applied to a singleton candidate list
with one id already processed from an earlier call. -/
theorem runOnce_no_realert_witness :
    (∀ id ∈ ["m0"],
      id ∈ (runOnce (fun _ => Except.ok true) (fun _ => Except.ok true)
        (fun _ => Except.ok true) (fun _ => (5 : ℚ)) 1
        [⟨"m1", some "t1", some 1000, some "me@x", some "boss@x", some "leave request", none⟩]
        ["m0"]).processed) ∧
    (∀ id ∈ ["m0"],
      id ∉ (runOnce (fun _ => Except.ok true) (fun _ => Except.ok true)
        (fun _ => Except.ok true) (fun _ => (5 : ℚ)) 1
        [⟨"m1", some "t1", some 1000, some "me@x", some "boss@x", some "leave request", none⟩]
        ["m0"]).notifiedIds) ∧
    (runOnce (fun _ => Except.ok true) (fun _ => Except.ok true)
        (fun _ => Except.ok true) (fun _ => (5 : ℚ)) 1
        [⟨"m1", some "t1", some 1000, some "me@x", some "boss@x", some "leave request", none⟩]
        ["m0"]).notifiedIds.Nodup :=
  runOnce_no_realert _ _ _ _ _ _ _ (by decide)

/-- Claim C6: a candidate still inside the grace period
(`ageHours < replyTimeoutHours`) is never handed to the Reply Resolver
and its id is not marked processed by that scan — it is left for a future
scan. -/
theorem runOnce_grace_period (reply notify : Email → Except String Bool)
    (summary : ℕ → Except String Bool) (age : Email → ℚ) (timeout : ℚ)
    (leaveRequests : List Email) (processed : List String) (r : Email)
    (hnd : (leaveRequests.map Email.id).Nodup) (hmem : r ∈ leaveRequests)
    (hage : age r < timeout) :
    r.id ∉ (runOnce reply notify summary age timeout leaveRequests processed).checkedIds ∧
    (r.id ∈ (runOnce reply notify summary age timeout leaveRequests processed).processed ↔
      r.id ∈ processed) := by
  have huniq : ∀ x ∈ leaveRequests, x.id = r.id → x = r := fun x hx hxy =>
    List.inj_on_of_nodup_map hnd hx hmem hxy
  obtain ⟨extra, hpend, hsub, hextra, hA, hB, hC, hcnt, hsent0, herr0, hchk0, hnot⟩ :=
    evalLoop_inv reply age timeout leaveRequests (initialState leaveRequests processed) []
  rcases hev : evalLoop reply age timeout leaveRequests
      (initialState leaveRequests processed, []) with ⟨st, pending⟩ | ⟨⟨st, p⟩, msg⟩
  · rw [hev] at hpend hA hB hC
    simp only [RunStep.state] at hpend hA hB hC
    simp only [initialState_processed, initialState_checkedIds] at hA hB hC hextra
    have hnochk : r.id ∉ st.checkedIds := by
      intro hmem'
      rcases hC r.id hmem' with h | ⟨x, hx, hxid, hxage⟩
      · simp at h
      · rw [huniq x hx hxid] at hxage
        exact hxage hage
    have hproc_iff : ∀ id', id' ∈ (notifyLoop notify pending st).state.processed →
        id' = r.id → id' ∈ processed := by
      intro id' hid' hid'eq
      obtain ⟨dispatched, hlog, hpre, hmono, hprov, hcnt2, herr2, hchk2, hcid2⟩ :=
        notifyLoop_inv notify pending st
      rcases hprov id' hid' with h | ⟨x, hx, hxid⟩
      · rcases hB id' h with h' | ⟨x, hx, hxid, hxage⟩
        · exact h'
        · rw [hid'eq] at hxid
          rw [huniq x hx hxid] at hxage
          exact absurd hage hxage
      · rw [hpend] at hx
        simp only [List.nil_append] at hx
        obtain ⟨hxmem, hxage, hxproc⟩ := hextra x hx
        rw [hid'eq] at hxid
        rw [huniq x hxmem hxid] at hxage
        exact absurd hage hxage
    obtain ⟨dispatched, hlog, hpre, hmono, hprov, hcnt2, herr2, hchk2, hcid2⟩ :=
      notifyLoop_inv notify pending st
    have hmono' : ∀ id ∈ processed, id ∈ (notifyLoop notify pending st).state.processed :=
      fun id h => hmono id (hA id h)
    rcases hnl : notifyLoop notify pending st with st2 | ⟨st2, msg⟩
    · rw [hnl] at hproc_iff hmono' hchk2 hcid2
      simp only [RunStep.state] at hproc_iff hmono' hchk2 hcid2
      have hrun : runOnce reply notify summary age timeout leaveRequests processed
          = summaryPhase summary pending.length st2 := by
        simp only [runOnce, hev, hnl]
      obtain ⟨hsp, hsn, hsc, hss, hspend, hscheck⟩ :=
        summaryPhase_preserves summary pending.length st2
      rw [hrun, hsp, hsc, hcid2]
      exact ⟨hnochk, fun h => hproc_iff r.id h rfl, fun h => hmono' r.id h⟩
    · rw [hnl] at hproc_iff hmono' hchk2 hcid2
      simp only [RunStep.state] at hproc_iff hmono' hchk2 hcid2
      have hrun : runOnce reply notify summary age timeout leaveRequests processed
          = catchInto st2 msg := by
        simp only [runOnce, hev, hnl]
      rw [hrun, catchInto_processed, catchInto_checkedIds, hcid2]
      exact ⟨hnochk, fun h => hproc_iff r.id h rfl, fun h => hmono' r.id h⟩
  · rw [hev] at hA hB hC
    simp only [RunStep.state] at hA hB hC
    simp only [initialState_processed, initialState_checkedIds] at hA hB hC
    have hrun : runOnce reply notify summary age timeout leaveRequests processed
        = catchInto st msg := by
      simp only [runOnce, hev]
    rw [hrun, catchInto_processed, catchInto_checkedIds]
    refine ⟨?_, ?_, fun h => hA r.id h⟩
    · intro hmem'
      rcases hC r.id hmem' with h | ⟨x, hx, hxid, hxage⟩
      · simp at h
      · rw [huniq x hx hxid] at hxage
        exact hxage hage
    · intro h
      rcases hB r.id h with h' | ⟨x, hx, hxid, hxage⟩
      · exact h'
      · rw [huniq x hx hxid] at hxage
        exact absurd hage hxage

/-- Claim C6 witness: the theorem applied to a single fresh candidate
whose age 0 is below the timeout 1. -/
theorem runOnce_grace_period_witness :
    (⟨"m1", some "t1", some 1000, some "me@x", some "boss@x", some "leave request",
        none⟩ : Email).id ∉
      (runOnce (fun _ => Except.ok false) (fun _ => Except.ok true)
        (fun _ => Except.ok true) (fun _ => (0 : ℚ)) 1
        [⟨"m1", some "t1", some 1000, some "me@x", some "boss@x", some "leave request", none⟩]
        []).checkedIds ∧
    ((⟨"m1", some "t1", some 1000, some "me@x", some "boss@x", some "leave request",
        none⟩ : Email).id ∈
      (runOnce (fun _ => Except.ok false) (fun _ => Except.ok true)
        (fun _ => Except.ok true) (fun _ => (0 : ℚ)) 1
        [⟨"m1", some "t1", some 1000, some "me@x", some "boss@x", some "leave request", none⟩]
        []).processed ↔
      (⟨"m1", some "t1", some 1000, some "me@x", some "boss@x", some "leave request",
        none⟩ : Email).id ∈ ([] : List String)) :=
  runOnce_grace_period _ _ _ _ _ _ _ _ (by decide) (List.mem_cons_self _ _) (by norm_num)

/-- Claim C10: `notifications_sent` counts dispatch attempts, not
confirmed deliveries — when the evaluating and notifying loops both
complete without a thrown exception, `notifications_sent` equals
`pending_requests`, which equals the queue length, and every queued
candidate is marked processed; nothing in the loop consults the boolean
result of the dispatch, so this holds in particular when every dispatch
reports failure by returning `false`. -/
theorem runOnce_counts_attempts (reply notify : Email → Except String Bool)
    (summary : ℕ → Except String Bool) (age : Email → ℚ) (timeout : ℚ)
    (leaveRequests : List Email) (processed : List String)
    (st : AgentState) (pending : List Email) (st2 : AgentState)
    (hev : evalLoop reply age timeout leaveRequests
      (initialState leaveRequests processed, []) = .completed (st, pending))
    (hnl : notifyLoop notify pending st = .completed st2) :
    (runOnce reply notify summary age timeout leaveRequests
        processed).results.notifications_sent
      = (runOnce reply notify summary age timeout leaveRequests
          processed).results.pending_requests ∧
    (runOnce reply notify summary age timeout leaveRequests
        processed).results.pending_requests = pending.length ∧
    ∀ r ∈ pending, r.id ∈ (runOnce reply notify summary age timeout leaveRequests
        processed).processed := by
  have hrun : runOnce reply notify summary age timeout leaveRequests processed
      = summaryPhase summary pending.length st2 := by
    simp only [runOnce, hev, hnl]
  obtain ⟨extra, hpend, hsub, hextra, hA, hB, hC, hcnt, hsent0, herr0, hchk0, hnot⟩ :=
    evalLoop_inv reply age timeout leaveRequests (initialState leaveRequests processed) []
  rw [hev] at hpend hcnt hsent0
  simp only [RunStep.state] at hpend hcnt hsent0
  simp only [List.nil_append] at hpend
  have hinit_pending :
      (initialState leaveRequests processed).results.pending_requests = 0 := rfl
  have hinit_sent :
      (initialState leaveRequests processed).results.notifications_sent = 0 := rfl
  rw [hinit_pending] at hcnt
  rw [hinit_sent] at hsent0
  obtain ⟨hsent, hproc⟩ := notifyLoop_completed notify pending st st2 hnl
  obtain ⟨dispatched, hlog, hpre, hmono, hprov, hcnt2, herr2, hchk2, hcid2⟩ :=
    notifyLoop_inv notify pending st
  rw [hnl] at hcnt2
  simp only [RunStep.state] at hcnt2
  obtain ⟨hsp, hsn, hsc, hss, hspend, hscheck⟩ :=
    summaryPhase_preserves summary pending.length st2
  rw [hrun, hss, hspend, hsp]
  refine ⟨?_, ?_, hproc⟩
  · rw [hsent, hsent0, hcnt2, hcnt, hpend]
  · rw [hcnt2, hcnt, hpend]
    simp

/-- Claim C10 witness: the theorem applied to one overdue unanswered
candidate whose dispatch returns `false` (reported failure): the attempt
is still counted and the candidate still marked processed. -/
theorem runOnce_counts_attempts_witness :
    (runOnce (fun _ => Except.ok false) (fun _ => Except.ok false)
        (fun _ => Except.ok true) (fun _ => (5 : ℚ)) 1
        [⟨"m1", some "t1", some 1000, some "me@x", some "boss@x", some "leave request", none⟩]
        []).results.notifications_sent
      = (runOnce (fun _ => Except.ok false) (fun _ => Except.ok false)
          (fun _ => Except.ok true) (fun _ => (5 : ℚ)) 1
          [⟨"m1", some "t1", some 1000, some "me@x", some "boss@x", some "leave request",
            none⟩]
          []).results.pending_requests ∧
    (runOnce (fun _ => Except.ok false) (fun _ => Except.ok false)
        (fun _ => Except.ok true) (fun _ => (5 : ℚ)) 1
        [⟨"m1", some "t1", some 1000, some "me@x", some "boss@x", some "leave request", none⟩]
        []).results.pending_requests
      = [(⟨"m1", some "t1", some 1000, some "me@x", some "boss@x", some "leave request",
          none⟩ : Email)].length ∧
    ∀ r ∈ [(⟨"m1", some "t1", some 1000, some "me@x", some "boss@x", some "leave request",
        none⟩ : Email)],
      r.id ∈ (runOnce (fun _ => Except.ok false) (fun _ => Except.ok false)
        (fun _ => Except.ok true) (fun _ => (5 : ℚ)) 1
        [⟨"m1", some "t1", some 1000, some "me@x", some "boss@x", some "leave request", none⟩]
        []).processed :=
  runOnce_counts_attempts _ _ _ _ _ _ _
    ⟨[], ⟨1, 1, 0, []⟩, ["m1"], []⟩
    [⟨"m1", some "t1", some 1000, some "me@x", some "boss@x", some "leave request", none⟩]
    ⟨["m1"], ⟨1, 1, 1, []⟩, ["m1"], ["m1"]⟩
    (by decide) (by decide)

/-- Claim C3 counterexample: two overdue unanswered candidates are
queued; the dispatch for the first one throws.  The error IS caught and
appended to the run summary, but the remaining candidate is NOT notified
(the dispatch log stops at the first candidate), nothing is counted and
the second candidate is not marked processed — refuting the claim that an
error inside the per-candidate loop leaves the remaining candidates
evaluated and notified. -/
theorem runOnce_c3_counterexample :
    (runOnce (fun _ => Except.ok false)
        (fun e => if e.id = "m1" then Except.error "boom" else Except.ok true)
        (fun _ => Except.ok true) (fun _ => (5 : ℚ)) 1
        [⟨"m1", some "t1", some 1000, some "me@x", some "boss@x", some "leave request", none⟩,
         ⟨"m2", some "t2", some 2000, some "me@x", some "hr@x", some "leave application",
          none⟩]
        []).results.pending_requests = 2 ∧
    (runOnce (fun _ => Except.ok false)
        (fun e => if e.id = "m1" then Except.error "boom" else Except.ok true)
        (fun _ => Except.ok true) (fun _ => (5 : ℚ)) 1
        [⟨"m1", some "t1", some 1000, some "me@x", some "boss@x", some "leave request", none⟩,
         ⟨"m2", some "t2", some 2000, some "me@x", some "hr@x", some "leave application",
          none⟩]
        []).results.errors = [agentErrorText "boom"] ∧
    (runOnce (fun _ => Except.ok false)
        (fun e => if e.id = "m1" then Except.error "boom" else Except.ok true)
        (fun _ => Except.ok true) (fun _ => (5 : ℚ)) 1
        [⟨"m1", some "t1", some 1000, some "me@x", some "boss@x", some "leave request", none⟩,
         ⟨"m2", some "t2", some 2000, some "me@x", some "hr@x", some "leave application",
          none⟩]
        []).notifiedIds = ["m1"] ∧
    (runOnce (fun _ => Except.ok false)
        (fun e => if e.id = "m1" then Except.error "boom" else Except.ok true)
        (fun _ => Except.ok true) (fun _ => (5 : ℚ)) 1
        [⟨"m1", some "t1", some 1000, some "me@x", some "boss@x", some "leave request", none⟩,
         ⟨"m2", some "t2", some 2000, some "me@x", some "hr@x", some "leave application",
          none⟩]
        []).results.notifications_sent = 0 ∧
    "m2" ∉ (runOnce (fun _ => Except.ok false)
        (fun e => if e.id = "m1" then Except.error "boom" else Except.ok true)
        (fun _ => Except.ok true) (fun _ => (5 : ℚ)) 1
        [⟨"m1", some "t1", some 1000, some "me@x", some "boss@x", some "leave request", none⟩,
         ⟨"m2", some "t2", some 2000, some "me@x", some "hr@x", some "leave application",
          none⟩]
        []).processed := by
  decide

/-- Claim C3 (amended): an error raised while notifying a candidate is
caught — by the single run-level handler, not per candidate: its message
is appended to the result's errors list and `runOnce` still returns the
summary record, but the throw aborts the remaining queued candidates of
that run: exactly the candidates before the failing one (plus the failing
attempt itself) appear in the dispatch log, only they are counted, and
the error list holds exactly the caught message. -/
theorem runOnce_error_caught (reply notify : Email → Except String Bool)
    (summary : ℕ → Except String Bool) (age : Email → ℚ) (timeout : ℚ)
    (leaveRequests : List Email) (processed : List String)
    (st : AgentState) (p1 : List Email) (e : Email) (p2 : List Email) (msg : String)
    (hev : evalLoop reply age timeout leaveRequests
      (initialState leaveRequests processed, []) = .completed (st, p1 ++ e :: p2))
    (hok : ∀ x ∈ p1, ∃ b, notify x = Except.ok b)
    (herr : notify e = Except.error msg) :
    (runOnce reply notify summary age timeout leaveRequests processed).results.errors
      = [agentErrorText msg] ∧
    (runOnce reply notify summary age timeout leaveRequests processed).notifiedIds
      = p1.map Email.id ++ [e.id] ∧
    (runOnce reply notify summary age timeout leaveRequests
        processed).results.notifications_sent = p1.length := by
  obtain ⟨extra, hpend, hsub, hextra, hA, hB, hC, hcnt, hsent0, herr0, hchk0, hnot⟩ :=
    evalLoop_inv reply age timeout leaveRequests (initialState leaveRequests processed) []
  rw [hev] at hsent0 herr0 hnot
  simp only [RunStep.state] at hsent0 herr0 hnot
  have hinit_sent :
      (initialState leaveRequests processed).results.notifications_sent = 0 := rfl
  have hinit_err : (initialState leaveRequests processed).results.errors = [] := rfl
  rw [hinit_sent] at hsent0
  rw [hinit_err] at herr0
  rw [initialState_notifiedIds] at hnot
  obtain ⟨stMid, hrun, hlog, hsent, herr2, hcnt2, hproc⟩ :=
    notifyLoop_raised_at notify p1 e p2 st msg hok herr
  have hfinal : runOnce reply notify summary age timeout leaveRequests processed
      = catchInto stMid msg := by
    simp only [runOnce, hev, hrun]
  rw [hfinal, catchInto_errors, catchInto_notifiedIds, catchInto_sent]
  refine ⟨?_, ?_, ?_⟩
  · rw [herr2, herr0]
    simp
  · rw [hlog, hnot]
    simp
  · rw [hsent, hsent0]
    simp

/-- Claim C3 amended-theorem witness: the theorem applied to the same
two-candidate run as the counterexample, with the failing dispatch first
in the queue. -/
theorem runOnce_error_caught_witness :
    (runOnce (fun _ => Except.ok false)
        (fun e => if e.id = "m1" then Except.error "boom" else Except.ok true)
        (fun _ => Except.ok true) (fun _ => (5 : ℚ)) 1
        [⟨"m1", some "t1", some 1000, some "me@x", some "boss@x", some "leave request", none⟩,
         ⟨"m2", some "t2", some 2000, some "me@x", some "hr@x", some "leave application",
          none⟩]
        []).results.errors = [agentErrorText "boom"] ∧
    (runOnce (fun _ => Except.ok false)
        (fun e => if e.id = "m1" then Except.error "boom" else Except.ok true)
        (fun _ => Except.ok true) (fun _ => (5 : ℚ)) 1
        [⟨"m1", some "t1", some 1000, some "me@x", some "boss@x", some "leave request", none⟩,
         ⟨"m2", some "t2", some 2000, some "me@x", some "hr@x", some "leave application",
          none⟩]
        []).notifiedIds
      = List.map Email.id ([] : List Email) ++
        [(⟨"m1", some "t1", some 1000, some "me@x", some "boss@x", some "leave request",
           none⟩ : Email).id] ∧
    (runOnce (fun _ => Except.ok false)
        (fun e => if e.id = "m1" then Except.error "boom" else Except.ok true)
        (fun _ => Except.ok true) (fun _ => (5 : ℚ)) 1
        [⟨"m1", some "t1", some 1000, some "me@x", some "boss@x", some "leave request", none⟩,
         ⟨"m2", some "t2", some 2000, some "me@x", some "hr@x", some "leave application",
          none⟩]
        []).results.notifications_sent = ([] : List Email).length :=
  runOnce_error_caught _ _ _ _ _ _ _
    ⟨[], ⟨2, 2, 0, []⟩, ["m1", "m2"], []⟩ []
    ⟨"m1", some "t1", some 1000, some "me@x", some "boss@x", some "leave request", none⟩
    [⟨"m2", some "t2", some 2000, some "me@x", some "hr@x", some "leave application", none⟩]
    "boom" (by decide) (fun x hx => absurd hx (List.not_mem_nil x)) rfl

end LeaveAgent
